import Mathlib

/-!
# Verification of the keystone text-analytics routines

Shallow embedding of the client-side text-processing routines of the
repository (word-frequency counting, lexical sentiment scoring, extractive
summarization, word-cloud clamping, and the network-failure fallback paths),
together with proofs of the spec's testable properties.

Conventions of the embedding:
* JavaScript strings are Lean `String`s; `String.length` counts characters
  (the sources only ever measure ASCII text, where this agrees with UTF-16
  unit counts).
* `text.toLowerCase()` is modelled with `Char.toLower` per character (ASCII
  case folding; all word lists and comparisons in the sources are ASCII).
* JavaScript numbers are modelled with `Nat`/`Int`/`Rat` exact arithmetic.
  Where the sources multiply an array length by the literals 0.2/0.4/0.6
  (and compare indices against n*0.3 / n*0.7 at n = 10), the IEEE-754
  double computation agrees with exact rational arithmetic for every
  length reachable by a JavaScript array, so the exact model is faithful.
* `Math.random()` draws are explicit rational parameters `r` constrained
  by `0 ≤ r` and `r < 1`.
* A `fetch` that may reject is an explicit `FetchOutcome` argument.
-/

namespace Keystone

/-- Characters matched by the JavaScript regex class `\s` (the ASCII part:
space, tab, line feed, vertical tab, form feed, carriage return). -/
def isJsWs (c : Char) : Bool :=
  c = ' ' || c = '\t' || c = '\n' || c = '\x0b' || c = '\x0c' || c = '\r'

/-- Characters matched by the JavaScript regex class `\w`:
`[A-Za-z0-9_]`. -/
def isWordChar (c : Char) : Bool :=
  ('a' ≤ c && c ≤ 'z') || ('A' ≤ c && c ≤ 'Z') || ('0' ≤ c && c ≤ '9') || c = '_'

/-- Worker for `jsSplit`.  The `inSep` flag records whether the previous
character belonged to a separator run (so further separator characters are
absorbed into the same run, as the regexes `/\s+/` and `/[.!?]+/` do). -/
def jsSplitAux (p : Char → Bool) : List Char → List Char → Bool → List (List Char)
  | [], acc, false => [acc.reverse]
  | [], _, true => [[]]
  | c :: cs, acc, false =>
      if p c then acc.reverse :: jsSplitAux p cs [] true
      else jsSplitAux p cs (c :: acc) false
  | c :: cs, acc, true =>
      if p c then jsSplitAux p cs acc true
      else jsSplitAux p cs [c] false

/-- JavaScript `s.split(re)` where `re` matches maximal nonempty runs of
characters satisfying `p` (the sources use `/\s+/` and `/[.!?]+/`).
Like JavaScript, a leading (resp. trailing) separator run contributes a
leading (resp. trailing) empty token, and `"".split` yields `[""]`. -/
def jsSplit (p : Char → Bool) (s : String) : List String :=
  (jsSplitAux p s.toList [] false).map fun cs => String.mk cs

/-- JavaScript `s.toLowerCase()` (ASCII fold). -/
def jsToLower (s : String) : String :=
  String.mk (s.toList.map Char.toLower)

/-- JavaScript `s.trim()`: strip leading and trailing whitespace. -/
def jsTrim (s : String) : String :=
  String.mk (((s.toList.dropWhile isJsWs).reverse.dropWhile isJsWs).reverse)

/-- `needle` occurs as a contiguous run at the head of `hay`. -/
def matchesAt : List Char → List Char → Bool
  | [], _ => true
  | _ :: _, [] => false
  | a :: as, b :: bs => a = b && matchesAt as bs

/-- `needle` occurs as a contiguous run somewhere in `hay`. -/
def containsSeq (needle : List Char) : List Char → Bool
  | [] => matchesAt needle []
  | c :: cs => matchesAt needle (c :: cs) || containsSeq needle cs

/-- JavaScript `hay.includes(needle)` (substring containment). -/
def jsIncludes (hay needle : String) : Bool :=
  containsSeq needle.toList hay.toList

/-!
## Stable sorting

`Array.prototype.sort` is stable.  Both call sites of the repository sort by
a numeric key (`(a, b) => b.count - a.count` descending, and
`(a, b) => a.index - b.index` ascending); a stable sort by a fixed key has a
unique result, so we model both with stable insertion sorts.
-/

/-- Insert `a` into `l` keeping `l`'s order, placing `a` before the first
element whose key is not larger (stable descending insertion). -/
def insertByDesc (key : α → Nat) (a : α) : List α → List α
  | [] => [a]
  | b :: rest => if key b ≤ key a then a :: b :: rest else b :: insertByDesc key a rest

/-- Stable sort by `key`, largest first (models `sort((a, b) => key b - key a)`). -/
def sortByDesc (key : α → Nat) (l : List α) : List α :=
  l.foldr (insertByDesc key) []

/-- Insert `a` into `l` keeping `l`'s order, placing `a` before the first
element whose key is not smaller (stable ascending insertion). -/
def insertByAsc (key : α → Nat) (a : α) : List α → List α
  | [] => [a]
  | b :: rest => if key a ≤ key b then a :: b :: rest else b :: insertByAsc key a rest

/-- Stable sort by `key`, smallest first (models `sort((a, b) => key a - key b)`). -/
def sortByAsc (key : α → Nat) (l : List α) : List α :=
  l.foldr (insertByAsc key) []

/-!
## Word-frequency counter — `src/src/components/WordCloudGenerator.tsx`

```
const getWordFrequency = (text: string, removeStopWords: boolean) => {
  const words = text.toLowerCase()
    .replace(/[^\w\s]/g, ' ')
    .split(/\s+/)
    .filter(word => word.length > 2);
  const filteredWords = removeStopWords
    ? words.filter(word => !stopWords.has(word))
    : words;
  const frequency: { [key: string]: number } = {};
  filteredWords.forEach(word => {
    frequency[word] = (frequency[word] || 0) + 1;
  });
  return Object.entries(frequency)
    .sort(([,a], [,b]) => b - a)
    .slice(0, 50);
};
```

`Object.entries` is modelled as first-insertion order (exact for JavaScript
string keys that are not array indices; for all-digit keys JavaScript would
list them first, which permutes ties — none of the verified properties
depend on the order of equal-count entries).
-/

/-- The stop-word set of `WordCloudGenerator.tsx`.  The source array lists
`'her'` twice; the `Set` constructor collapses the duplicate, so it appears
once here. -/
def stopWords : List String :=
  ["the", "a", "an", "and", "or", "but", "in", "on", "at", "to", "for", "of", "with", "by",
   "is", "are", "was", "were", "be", "been", "being", "have", "has", "had", "do", "does", "did",
   "will", "would", "could", "should", "may", "might", "must", "can", "this", "that", "these",
   "those", "i", "you", "he", "she", "it", "we", "they", "me", "him", "her", "us", "them",
   "my", "your", "his", "its", "our", "their", "am", "as", "if", "so", "than", "very"]

/-- `text.replace(/[^\w\s]/g, ' ')`: every character that is neither a word
character nor whitespace becomes a space. -/
def stripPunct (s : String) : String :=
  String.mk (s.toList.map fun c => if isWordChar c || isJsWs c then c else ' ')

/-- The token list of the input: `text.toLowerCase().replace(/[^\w\s]/g, ' ').split(/\s+/)`. -/
def inputTokens (text : String) : List String :=
  jsSplit isJsWs (stripPunct (jsToLower text))

/-- `words`: the tokens of length `> 2`. -/
def lengthTokens (text : String) : List String :=
  (inputTokens text).filter fun w => w.length > 2

/-- `filteredWords`: optionally drop stop words. -/
def filteredWords (text : String) (removeStopWords : Bool) : List String :=
  if removeStopWords then (lengthTokens text).filter fun w => ¬ stopWords.contains w
  else lengthTokens text

/-- One step of `frequency[word] = (frequency[word] || 0) + 1` on an
insertion-ordered association list. -/
def addWord (l : List (String × Nat)) (w : String) : List (String × Nat) :=
  match l with
  | [] => [(w, 1)]
  | (x, c) :: rest => if x = w then (x, c + 1) :: rest else (x, c) :: addWord rest w

/-- The `frequency` object after the `forEach`, as an insertion-ordered list. -/
def freqList (ws : List String) : List (String × Nat) :=
  ws.foldl addWord []

/-- `getWordFrequency`: count, sort by count descending (stable), keep the
first 50 entries. -/
def getWordFrequency (text : String) (removeStopWords : Bool) : List (String × Nat) :=
  (sortByDesc (fun p => p.2) (freqList (filteredWords text removeStopWords))).take 50

/-- The word-frequency pipeline of `generateWordCloud` (lines 112–122):
```
const wordFreqs = getWordFrequency(inputText, removeStopWords)
  .filter(([word]) => word.length >= minWordLength[0])
  .slice(0, maxWords[0]);
```
-/
def generateWordCloudFreqs (text : String) (removeStopWords : Bool)
    (minWordLength maxWords : Nat) : List (String × Nat) :=
  (((getWordFrequency text removeStopWords).filter
      fun p => p.1.length ≥ minWordLength).take maxWords)

/-!
## Extractive summarizer — `src/src/components/CommentSummarizer.tsx`

```
const summarizeText = (text, length = 'medium') => {
  const sentences = text.split(/[.!?]+/).filter(s => s.trim().length > 0);
  let targetSentences;
  switch (length) {
    case 'short': targetSentences = Math.max(1, Math.ceil(sentences.length * 0.2)); break;
    case 'medium': targetSentences = Math.max(2, Math.ceil(sentences.length * 0.4)); break;
    case 'long': targetSentences = Math.max(3, Math.ceil(sentences.length * 0.6)); break;
  }
  const keyTerms = ['bill', 'amendment', 'regulation', 'corporate', 'company',
                    'business', 'compliance', 'governance'];
  const scoredSentences = sentences.map((sentence, index) => { ... });
  const topSentences = scoredSentences
    .sort((a, b) => b.score - a.score)
    .slice(0, targetSentences)
    .sort((a, b) => a.index - b.index);
  return topSentences.map(item => item.sentence).join('. ') + '.';
};
```

`Math.ceil(n * f)` for `f ∈ {0.2, 0.4, 0.6}`, and the positional comparisons
`index < n * 0.3` / `index > n * 0.7`, are modelled with exact rational
arithmetic; the IEEE-754 double products round to the exact value for every
`n` in the range of a JavaScript array length, so no divergence is possible.
-/

/-- The sentence separators of `text.split(/[.!?]+/)`. -/
def isTermPunct (c : Char) : Bool :=
  c = '.' || c = '!' || c = '?'

/-- `sentences`: split on terminal-punctuation runs, keep the chunks whose
trimmed length is positive. -/
def sentencesOf (text : String) : List String :=
  (jsSplit isTermPunct text).filter fun s => (jsTrim s).length > 0

/-- The summary-length setting. -/
inductive SummaryLength where
  | short
  | medium
  | long
deriving DecidableEq

/-- `Nat.ceil (a / b)` for naturals: `⌈a / b⌉`. -/
def ceilDiv (a b : Nat) : Nat :=
  (a + b - 1) / b

/-- `targetSentences`: the configured fraction of the sentence count, rounded
up, with a length-dependent minimum of 1, 2 or 3. -/
def targetSentences (length : SummaryLength) (n : Nat) : Nat :=
  match length with
  | .short => max 1 (ceilDiv n 5)
  | .medium => max 2 (ceilDiv (2 * n) 5)
  | .long => max 3 (ceilDiv (3 * n) 5)

/-- `keyTerms`. -/
def keyTerms : List String :=
  ["bill", "amendment", "regulation", "corporate", "company", "business",
   "compliance", "governance"]

/-- One scored sentence: `{ sentence: sentence.trim(), score, index }`. -/
structure ScoredSentence where
  sentence : String
  score : Nat
  index : Nat
deriving DecidableEq

/-- The score of a sentence at position `index` among `n` sentences:
two points per key term occurring inside some token, one point for the
leading 30 % of positions, one for the trailing 30 %, and one for more
than ten tokens.  `index < n * 0.3` is `10 * index < 3 * n` and
`index > n * 0.7` is `10 * index > 7 * n` in exact arithmetic. -/
def sentenceScore (n : Nat) (sentence : String) (index : Nat) : Nat :=
  let words := jsSplit isJsWs (jsToLower sentence)
  let s0 := keyTerms.foldl
    (fun sc term => if words.any (fun w => jsIncludes w term) then sc + 2 else sc) 0
  let s1 := if 10 * index < 3 * n then s0 + 1 else s0
  let s2 := if 10 * index > 7 * n then s1 + 1 else s1
  if words.length > 10 then s2 + 1 else s2

/-- `scoredSentences`. -/
def scoredSentences (text : String) : List ScoredSentence :=
  let sentences := sentencesOf text
  sentences.enum.map fun (index, sentence) =>
    { sentence := jsTrim sentence
      score := sentenceScore sentences.length sentence index
      index := index }

/-- `topSentences`: stable sort by score descending, truncate to the target,
re-sort by original index. -/
def topSentences (text : String) (length : SummaryLength) : List ScoredSentence :=
  sortByAsc (fun s => s.index)
    ((sortByDesc (fun s => s.score) (scoredSentences text)).take
      (targetSentences length (sentencesOf text).length))

/-- `summarizeText`: join the selected sentences with `'. '` and append `'.'`. -/
def summarizeText (text : String) (length : SummaryLength) : String :=
  String.intercalate ". " ((topSentences text length).map fun s => s.sentence) ++ "."

/-!
## Lexical sentiment scorer — `src/src/components/CombinedInsights.tsx`
(`lexicalScore`, lines 61–71) and `src/unnamed/part_000` (`analyzeSentiment`,
lines 34–49), which contain the same loop over the same word lists:

```
const words = text.toLowerCase().split(/\s+/);
let score = 0;
words.forEach(word => {
  if (positiveWords.includes(word)) score += 1;
  if (negativeWords.includes(word)) score -= 1;
});
```
-/

/-- The positive-word list shared by `lexicalScore` and `part_000`'s
`analyzeSentiment`. -/
def positiveWordsLex : List String :=
  ["good", "excellent", "great", "support", "beneficial", "positive", "agree",
   "helpful", "useful", "improvement"]

/-- The negative-word list shared by `lexicalScore` and `part_000`'s
`analyzeSentiment`. -/
def negativeWordsLex : List String :=
  ["bad", "terrible", "oppose", "against", "negative", "disagree", "harmful",
   "useless", "wrong", "problem"]

/-- `text.toLowerCase().split(/\s+/)`: the whitespace tokens of the input
(no punctuation stripping here). -/
def wsTokens (text : String) : List String :=
  jsSplit isJsWs (jsToLower text)

/-- `lexicalScore` / the `score` of `part_000`'s `analyzeSentiment`. -/
def lexicalScore (text : String) : Int :=
  (wsTokens text).foldl
    (fun score word =>
      let score := if positiveWordsLex.contains word then score + 1 else score
      if negativeWordsLex.contains word then score - 1 else score)
    0

/-- `normalizedScore` of `part_000`'s `analyzeSentiment` (lines 44–49):
`Math.max(-1, Math.min(1, score / words.length * 5))`. -/
def normalizedScore (text : String) : ℚ :=
  max (-1) (min 1 ((lexicalScore text : ℚ) / ((wsTokens text).length : ℚ) * 5))

/-!
## Local sentiment fallback — `src/unnamed/part_002`
(`getLocalSentimentAnalysis`, lines 98–141).

The two `Math.random()` calls of the neutral branch are the explicit
parameters `r1` (drawn for `confidence`) and `r2` (drawn for `score`).
-/

/-- The sentiment label of an `AnalyzedComment`. -/
inductive SentimentLabel where
  | positive
  | negative
  | neutral
deriving DecidableEq

/-- The record returned by `getLocalSentimentAnalysis`. -/
structure LocalSentiment where
  sentiment : SentimentLabel
  score : ℚ
  confidence : ℚ
deriving DecidableEq

/-- The positive-word list of `getLocalSentimentAnalysis`. -/
def positiveWordsLocal : List String :=
  ["good", "great", "excellent", "wonderful", "amazing", "support", "benefit",
   "helpful", "improve"]

/-- The negative-word list of `getLocalSentimentAnalysis`. -/
def negativeWordsLocal : List String :=
  ["bad", "poor", "terrible", "awful", "oppose", "burden", "restrictive",
   "unnecessary", "concern"]

/-- `getLocalSentimentAnalysis`: lowercase the text, count which list words
occur as substrings (`text.includes(word)` — presence, not per occurrence),
then branch on the comparison of the two presence counts. -/
def getLocalSentimentAnalysis (text : String) (r1 r2 : ℚ) : LocalSentiment :=
  let t := jsToLower text
  let positiveCount := positiveWordsLocal.countP fun w => jsIncludes t w
  let negativeCount := negativeWordsLocal.countP fun w => jsIncludes t w
  if positiveCount > negativeCount then
    let confidence := min (1/2 + ((positiveCount : ℚ) - (negativeCount : ℚ)) * (1/10)) (9/10)
    { sentiment := .positive, score := 1/2 + confidence * (1/2), confidence := confidence }
  else if negativeCount > positiveCount then
    let confidence := min (1/2 + ((negativeCount : ℚ) - (positiveCount : ℚ)) * (1/10)) (9/10)
    { sentiment := .negative, score := -(1/2 + confidence * (1/2)), confidence := confidence }
  else
    { sentiment := .neutral
      score := (r2 - 1/2) * (2/5)
      confidence := 3/10 + r1 * (1/5) }

/-!
## Network-failure call sites — `src/unnamed/part_002` (`analyzeSentiment`,
lines 43–97) and `src/unnamed/part_001` (`handleSummarize`, lines 21–72).

A fallible `fetch`/parse round trip is an explicit `FetchOutcome` argument:
`ok v` is a response whose body decoded to `v`, `err` is a rejection
(network failure or malformed body) — exactly the event that lands in the
corresponding `catch` block.
-/

/-- Outcome of an awaited `fetch` + decode. -/
inductive FetchOutcome (α : Type) where
  | ok (v : α)
  | err
deriving DecidableEq

/-- `USE_LOCAL_FALLBACK` of `part_002` — the literal `true`, so the remote
branch of `analyzeSentiment` is dead code. -/
def useLocalFallback : Bool := true

/-- A decoded row of the sentiment response: the optional label `row[1]`
and the optional confidence `row[2]`, the latter already taken from its
`"NN%"` string to the percentage value (string-to-number parsing is
abstracted to the parsed value). -/
structure RemoteRow where
  label : Option String
  confPercent : Option ℚ

/-- The remote branch of `part_002`'s `analyzeSentiment` (lines 57–91):
read `rows[0]`, defaulting label to `"neutral"` and confidence to `0`, and
derive the score from the label, drawing `r` for neutral. -/
def remoteSentiment (rows : List RemoteRow) (r : ℚ) : LocalSentiment :=
  match rows with
  | [] => { sentiment := .neutral, score := 0, confidence := 0 }
  | row :: _ =>
    let sentiment := jsToLower (row.label.getD "neutral")
    let confidence := (row.confPercent.getD 0) / 100
    if sentiment = "positive" then
      { sentiment := .positive, score := 1/2 + confidence * (1/2), confidence := confidence }
    else if sentiment = "negative" then
      { sentiment := .negative, score := -(1/2) - confidence * (1/2), confidence := confidence }
    else
      { sentiment := .neutral, score := (r - 1/2) * (2/5), confidence := confidence }

/-- `part_002`'s `analyzeSentiment` as a function of the fetch outcome:
with `USE_LOCAL_FALLBACK` it answers locally before fetching; otherwise the
`catch` block (lines 91–94) maps a failure to `getLocalSentimentAnalysis`.
`r1`, `r2` are the local fallback's draws, `r3` the remote branch's. -/
def analyzeSentimentStream (text : String) (r1 r2 r3 : ℚ)
    (outcome : FetchOutcome (List RemoteRow)) : LocalSentiment :=
  if useLocalFallback then getLocalSentimentAnalysis text r1 r2
  else
    match outcome with
    | .ok rows => remoteSentiment rows r3
    | .err => getLocalSentimentAnalysis text r1 r2

/-- The component state written by `part_001`'s `handleSummarize`. -/
structure SummarizerState where
  summary : String
  keyPhrases : List String
deriving DecidableEq

/-- `part_001`'s `handleSummarize` as a state update on the fetch outcome.
On success it stores the parsed summary (`setSummary(parsedSummary)`;
`setKeyPhrases([])`); the `catch` block (lines 66–70) only logs
(`console.error`) — the state is left unchanged and no fallback summary is
computed (the component has no local summarizer). -/
def handleSummarizeUpdate (st : SummarizerState)
    (outcome : FetchOutcome String) : SummarizerState :=
  match outcome with
  | .ok parsedSummary => { summary := parsedSummary, keyPhrases := [] }
  | .err => st

/-!
## Word-cloud clamping — `src/src/components/AuthContext.tsx`
(`generateWordCloud`, lines 700–764).

The canvas is `1000 × 650` and the layout coordinates are relative to the
canvas center.  After the `d3.forceSimulation` ticks (an external library,
not part of the claim), each node is clamped (lines 757–761):

```
nodes.forEach((n) => {
  n.x = Math.max(-halfW + n.radius, Math.min(halfW - n.radius, n.x));
  n.y = Math.max(-halfH + n.radius, Math.min(halfH - n.radius, n.y));
});
```
-/

/-- Half the canvas width: `1000 / 2`. -/
def halfW : ℚ := 500

/-- Half the canvas height: `650 / 2`. -/
def halfH : ℚ := 325

/-- The final clamping step applied to a node at `(x, y)` with the given
radius. -/
def clampNode (x y radius : ℚ) : ℚ × ℚ :=
  (max (-halfW + radius) (min (halfW - radius) x),
   max (-halfH + radius) (min (halfH - radius) y))

/-- The bubble radius assigned to a word of `textLen` characters rendered at
font size `size` (lines 710–724): capped at `110` before the `0.92` shrink,
with a floor of `12`. -/
def wordRadius (size : ℚ) (textLen : Nat) : ℚ :=
  let approxTextWidth := (3/5) * size * (textLen : ℚ)
  let baseRadius := max 14 (size * 1)
  let bubbleRadius := max baseRadius (approxTextWidth / 2 + 10)
  let paddingRadius := min bubbleRadius 110
  max 12 (paddingRadius * (92/100))

/-- The keys of a frequency association list, in order. -/
def keysOf (l : List (String × Nat)) : List String :=
  l.map Prod.fst

/-- The total count stored under key `w` (the entry's count once keys are
distinct). -/
def keyCount (l : List (String × Nat)) (w : String) : Nat :=
  match l with
  | [] => 0
  | (x, c) :: rest => if x = w then c + keyCount rest w else keyCount rest w

/-- The sum of all stored counts. -/
def sumCounts (l : List (String × Nat)) : Nat :=
  (l.map Prod.snd).sum

/-!
## Supporting lemmas
-/

theorem insertByDesc_perm (key : α → Nat) (a : α) (l : List α) :
    List.Perm (insertByDesc key a l) (a :: l) := by
  induction l with
  | nil => exact List.Perm.refl _
  | cons b rest ih =>
    by_cases h : key b ≤ key a
    · simp [insertByDesc, h]
    · simp only [insertByDesc, if_neg h]
      exact ((ih.cons b).trans (List.Perm.swap a b rest))

theorem sortByDesc_perm (key : α → Nat) (l : List α) :
    List.Perm (sortByDesc key l) l := by
  induction l with
  | nil => exact List.Perm.refl _
  | cons a rest ih =>
    exact (insertByDesc_perm key a _).trans (ih.cons a)

theorem insertByAsc_perm (key : α → Nat) (a : α) (l : List α) :
    List.Perm (insertByAsc key a l) (a :: l) := by
  induction l with
  | nil => exact List.Perm.refl _
  | cons b rest ih =>
    by_cases h : key a ≤ key b
    · simp [insertByAsc, h]
    · simp only [insertByAsc, if_neg h]
      exact ((ih.cons b).trans (List.Perm.swap a b rest))

theorem sortByAsc_perm (key : α → Nat) (l : List α) :
    List.Perm (sortByAsc key l) l := by
  induction l with
  | nil => exact List.Perm.refl _
  | cons a rest ih =>
    exact (insertByAsc_perm key a _).trans (ih.cons a)

theorem addWord_keyCount_self (l : List (String × Nat)) (w : String) :
    keyCount (addWord l w) w = keyCount l w + 1 := by
  induction l with
  | nil => simp [addWord, keyCount]
  | cons p rest ih =>
    obtain ⟨x, c⟩ := p
    by_cases h : x = w
    · simp [addWord, keyCount, h, Nat.add_right_comm]
    · simp [addWord, keyCount, h, ih]

theorem addWord_keyCount_ne (l : List (String × Nat)) (w w' : String) (h : w' ≠ w) :
    keyCount (addWord l w) w' = keyCount l w' := by
  induction l with
  | nil =>
    have hww' : ¬ w = w' := fun hh => h hh.symm
    simp [addWord, keyCount, hww']
  | cons p rest ih =>
    obtain ⟨x, c⟩ := p
    simp only [addWord]
    by_cases hx : x = w
    · rw [if_pos hx]
      have hxw' : ¬ x = w' := fun hh => h (hh.symm.trans hx)
      simp [keyCount, hxw']
    · rw [if_neg hx]
      simp [keyCount, ih]

theorem foldl_addWord_keyCount (ws : List String) :
    ∀ (acc : List (String × Nat)) (w : String),
      keyCount (ws.foldl addWord acc) w = keyCount acc w + ws.count w := by
  induction ws with
  | nil => simp
  | cons v rest ih =>
    intro acc w
    simp only [List.foldl_cons, ih, List.count_cons, beq_iff_eq]
    by_cases h : v = w
    · subst h
      rw [addWord_keyCount_self]
      simp
      omega
    · rw [addWord_keyCount_ne _ _ _ (fun hh => h hh.symm)]
      simp [h]

theorem freqList_keyCount (ws : List String) (w : String) :
    keyCount (freqList ws) w = ws.count w := by
  simpa [keyCount] using foldl_addWord_keyCount ws [] w

theorem addWord_keysOf (l : List (String × Nat)) (w : String) :
    keysOf (addWord l w) = if w ∈ keysOf l then keysOf l else keysOf l ++ [w] := by
  induction l with
  | nil => simp [addWord, keysOf]
  | cons p rest ih =>
    obtain ⟨x, c⟩ := p
    by_cases h : x = w
    · simp [addWord, keysOf, h]
    · have hwx : ¬ w = x := fun hh => h hh.symm
      simp only [addWord, if_neg h, keysOf, List.map_cons] at ih ⊢
      rw [ih]
      by_cases hw : w ∈ List.map Prod.fst rest
      · simp [hw, hwx]
      · simp [hw, hwx]

theorem addWord_nodupKeys (l : List (String × Nat)) (w : String)
    (h : (keysOf l).Nodup) : (keysOf (addWord l w)).Nodup := by
  rw [addWord_keysOf]
  by_cases hw : w ∈ keysOf l
  · simpa [hw]
  · simp [hw, List.nodup_append, h, List.Disjoint]
    intro a ha hha
    exact hw (hha ▸ ha)

theorem freqList_nodupKeys (ws : List String) : (keysOf (freqList ws)).Nodup := by
  suffices h : ∀ acc : List (String × Nat),
      (keysOf acc).Nodup → (keysOf (ws.foldl addWord acc)).Nodup by
    exact h [] (by simp [keysOf])
  induction ws with
  | nil => intro acc hacc; simpa using hacc
  | cons v rest ih =>
    intro acc hacc
    exact ih _ (addWord_nodupKeys acc v hacc)

theorem keyCount_eq_zero (l : List (String × Nat)) (w : String)
    (h : w ∉ keysOf l) : keyCount l w = 0 := by
  induction l with
  | nil => simp [keyCount]
  | cons p rest ih =>
    obtain ⟨x, c⟩ := p
    simp only [keysOf, List.map_cons, List.mem_cons] at h
    push_neg at h
    have hxw : ¬ x = w := fun hh => h.1 hh.symm
    simp [keyCount, hxw, ih (by simpa [keysOf] using h.2)]

theorem mem_keysOf_of_mem {l : List (String × Nat)} {w : String} {c : Nat}
    (h : (w, c) ∈ l) : w ∈ keysOf l :=
  List.mem_map_of_mem Prod.fst h

theorem keyCount_of_mem {l : List (String × Nat)} {w : String} {c : Nat}
    (hnd : (keysOf l).Nodup) (h : (w, c) ∈ l) : keyCount l w = c := by
  induction l with
  | nil => simp at h
  | cons p rest ih =>
    obtain ⟨x, cx⟩ := p
    simp only [keysOf, List.map_cons, List.nodup_cons] at hnd
    rcases List.mem_cons.mp h with h1 | h1
    · have hx : w = x := congrArg Prod.fst h1
      have hc : c = cx := congrArg Prod.snd h1
      subst hx
      subst hc
      simp [keyCount, keyCount_eq_zero rest w hnd.1]
    · have hxw : ¬ x = w := fun hh => hnd.1 (hh ▸ mem_keysOf_of_mem h1)
      simp [keyCount, hxw, ih hnd.2 h1]

theorem keyCount_pos_mem {l : List (String × Nat)} {w : String}
    (h : 0 < keyCount l w) : ∃ c, (w, c) ∈ l := by
  induction l with
  | nil => simp [keyCount] at h
  | cons p rest ih =>
    obtain ⟨x, cx⟩ := p
    by_cases hx : x = w
    · exact ⟨cx, by simp [hx]⟩
    · simp only [keyCount, if_neg hx] at h
      obtain ⟨c, hc⟩ := ih h
      exact ⟨c, List.mem_cons_of_mem _ hc⟩

theorem addWord_pos (l : List (String × Nat)) (w : String)
    (h : ∀ p ∈ l, 1 ≤ p.2) : ∀ p ∈ addWord l w, 1 ≤ p.2 := by
  induction l with
  | nil =>
    intro p hp
    simp [addWord] at hp
    simp [hp]
  | cons q rest ih =>
    obtain ⟨x, c⟩ := q
    intro p hp
    by_cases hx : x = w
    · simp only [addWord, if_pos hx] at hp
      rcases List.mem_cons.mp hp with h1 | h1
      · simp [h1]
      · exact h p (List.mem_cons_of_mem _ h1)
    · simp only [addWord, if_neg hx] at hp
      rcases List.mem_cons.mp hp with h1 | h1
      · exact h p (h1 ▸ List.mem_cons_self _ _)
      · exact ih (fun q hq => h q (List.mem_cons_of_mem _ hq)) p h1

theorem freqList_pos (ws : List String) : ∀ p ∈ freqList ws, 1 ≤ p.2 := by
  suffices h : ∀ acc : List (String × Nat),
      (∀ p ∈ acc, 1 ≤ p.2) → ∀ p ∈ ws.foldl addWord acc, 1 ≤ p.2 by
    exact h [] (by simp)
  induction ws with
  | nil => intro acc hacc; simpa using hacc
  | cons v rest ih =>
    intro acc hacc
    exact ih _ (addWord_pos acc v hacc)

theorem addWord_fst_mem (l : List (String × Nat)) (w : String) :
    ∀ p ∈ addWord l w, p.1 ∈ keysOf l ∨ p.1 = w := by
  intro p hp
  have h := addWord_keysOf l w
  have hmem : p.1 ∈ keysOf (addWord l w) := mem_keysOf_of_mem hp
  rw [h] at hmem
  by_cases hw : w ∈ keysOf l
  · simp only [if_pos hw] at hmem
    exact Or.inl hmem
  · simp only [if_neg hw, List.mem_append, List.mem_singleton] at hmem
    exact hmem

theorem mem_keysOf_or_self {l : List (String × Nat)} {w : String} {u : String}
    (h : u ∈ keysOf (addWord l w)) : u ∈ keysOf l ∨ u = w := by
  rw [addWord_keysOf] at h
  by_cases hw : w ∈ keysOf l
  · simp only [if_pos hw] at h
    exact Or.inl h
  · simp only [if_neg hw, List.mem_append, List.mem_singleton] at h
    exact h

theorem freqList_fst_mem (ws : List String) : ∀ p ∈ freqList ws, p.1 ∈ ws := by
  suffices h : ∀ acc : List (String × Nat), ∀ p ∈ ws.foldl addWord acc,
      p.1 ∈ keysOf acc ∨ p.1 ∈ ws by
    intro p hp
    rcases h [] p hp with h1 | h1
    · simp [keysOf] at h1
    · exact h1
  induction ws with
  | nil =>
    intro acc p hp
    exact Or.inl (List.mem_map_of_mem Prod.fst hp)
  | cons v rest ih =>
    intro acc p hp
    rcases ih (addWord acc v) p (by simpa using hp) with h1 | h1
    · rcases mem_keysOf_or_self h1 with h2 | h2
      · exact Or.inl h2
      · exact Or.inr (by simp [h2])
    · exact Or.inr (List.mem_cons_of_mem _ h1)

theorem addWord_sumCounts (l : List (String × Nat)) (w : String) :
    sumCounts (addWord l w) = sumCounts l + 1 := by
  induction l with
  | nil => simp [addWord, sumCounts]
  | cons p rest ih =>
    obtain ⟨x, c⟩ := p
    by_cases h : x = w
    · simp [addWord, sumCounts, h]; omega
    · simp only [addWord, if_neg h]
      simp only [sumCounts, List.map_cons, List.sum_cons] at ih ⊢
      omega

theorem freqList_sumCounts (ws : List String) : sumCounts (freqList ws) = ws.length := by
  suffices h : ∀ acc : List (String × Nat),
      sumCounts (ws.foldl addWord acc) = sumCounts acc + ws.length by
    simpa [sumCounts] using h []
  induction ws with
  | nil => simp
  | cons v rest ih =>
    intro acc
    simp [List.foldl_cons, ih, addWord_sumCounts]
    omega

theorem sum_take_le (s : List Nat) (n : Nat) : (s.take n).sum ≤ s.sum := by
  conv_rhs => rw [← List.take_append_drop n s]
  rw [List.sum_append]
  exact Nat.le_add_right _ _

theorem sumCounts_take_le (l : List (String × Nat)) (n : Nat) :
    sumCounts (l.take n) ≤ sumCounts l := by
  simpa [sumCounts, List.map_take] using sum_take_le (l.map Prod.snd) n

theorem sumCounts_perm {l₁ l₂ : List (String × Nat)} (h : List.Perm l₁ l₂) :
    sumCounts l₁ = sumCounts l₂ :=
  (h.map Prod.snd).sum_eq

theorem filteredWords_sub_lengthTokens (text : String) (removeStopWords : Bool) :
    ∀ w ∈ filteredWords text removeStopWords, w ∈ lengthTokens text := by
  intro w hw
  by_cases h : removeStopWords
  · simp only [filteredWords, if_pos h] at hw
    exact List.mem_of_mem_filter hw
  · simpa [filteredWords, h] using hw

theorem filteredWords_length_le (text : String) (removeStopWords : Bool) :
    (filteredWords text removeStopWords).length ≤ (lengthTokens text).length := by
  by_cases h : removeStopWords
  · simp only [filteredWords, if_pos h]
    exact List.length_filter_le _ _
  · simp [filteredWords, h]

/-!
## Claims
-/

/-- C1: for every input text and stopword flag, every entry returned by the
frequency counter carries a count equal to the number of occurrences of its
word among the filtered tokens (hence every count is at least 1), and the
counts of all returned entries sum to at most the number of tokens of the
input. -/
theorem claim1_word_frequency_counts (text : String) (removeStopWords : Bool) :
    (∀ p ∈ getWordFrequency text removeStopWords,
        p.2 = (filteredWords text removeStopWords).count p.1 ∧ 1 ≤ p.2)
    ∧ sumCounts (getWordFrequency text removeStopWords) ≤ (inputTokens text).length := by
  constructor
  · intro p hp
    have hp1 : p ∈ sortByDesc (fun q => q.2)
        (freqList (filteredWords text removeStopWords)) :=
      List.mem_of_mem_take hp
    have hp2 : p ∈ freqList (filteredWords text removeStopWords) :=
      (sortByDesc_perm _ _).mem_iff.mp hp1
    obtain ⟨w, c⟩ := p
    refine ⟨?_, freqList_pos _ _ hp2⟩
    have h1 := keyCount_of_mem (freqList_nodupKeys _) hp2
    have h2 := freqList_keyCount (filteredWords text removeStopWords) w
    exact (h1.symm.trans h2 :)
  · calc sumCounts (getWordFrequency text removeStopWords)
        ≤ sumCounts (sortByDesc (fun q => q.2)
            (freqList (filteredWords text removeStopWords))) := sumCounts_take_le _ _
      _ = sumCounts (freqList (filteredWords text removeStopWords)) :=
            sumCounts_perm (sortByDesc_perm _ _)
      _ = (filteredWords text removeStopWords).length := freqList_sumCounts _
      _ ≤ (lengthTokens text).length := filteredWords_length_le text removeStopWords
      _ ≤ (inputTokens text).length := List.length_filter_le _ _

/-- Witness for C1 at the input `"cat cat dog"` without stopword removal:
the entry `("cat", 2)` is returned, its count matches, and the counts sum
within the token count. -/
theorem claim1_witness :
    ("cat", 2) ∈ getWordFrequency "cat cat dog" false ∧
    (2 = (filteredWords "cat cat dog" false).count "cat" ∧ 1 ≤ 2) ∧
    sumCounts (getWordFrequency "cat cat dog" false) ≤ (inputTokens "cat cat dog").length :=
  ⟨by decide,
   (claim1_word_frequency_counts "cat cat dog" false).1 ("cat", 2) (by decide),
   (claim1_word_frequency_counts "cat cat dog" false).2⟩

/-- Counterexample to C4 as stated: with minimum length `m = 2` the word
`"ab"` survives tokenization (`inputTokens`) and is no stop word, has length
`2 ≥ m`, yet the generated frequency list is empty — the hard-coded
`word.length > 2` filter of `getWordFrequency` excludes it, and not the
maximum-words truncation. -/
theorem claim4_counterexample :
    "ab" ∈ inputTokens "ab ab ab" ∧ stopWords.contains "ab" = false ∧
    2 ≤ ("ab" : String).length ∧
    generateWordCloudFreqs "ab ab ab" false 2 50 = [] := by decide

/-- C4 (amended): the effective minimum length is `max minWordLength 3` —
every returned word has length at least 3 and at least `minWordLength`;
and whenever no truncation applies (at most 50 distinct filtered words and
at most `maxWords` of them), every filtered token of length at least
`minWordLength` appears in the result. -/
theorem claim4_min_length_amended (text : String) (removeStopWords : Bool)
    (minWordLength maxWords : Nat) :
    (∀ p ∈ generateWordCloudFreqs text removeStopWords minWordLength maxWords,
        3 ≤ p.1.length ∧ minWordLength ≤ p.1.length)
    ∧ ((freqList (filteredWords text removeStopWords)).length ≤ 50 →
       (freqList (filteredWords text removeStopWords)).length ≤ maxWords →
       ∀ w ∈ filteredWords text removeStopWords, minWordLength ≤ w.length →
         w ∈ (generateWordCloudFreqs text removeStopWords minWordLength maxWords).map
              Prod.fst) := by
  constructor
  · intro p hp
    have h1 : p ∈ (getWordFrequency text removeStopWords).filter
        (fun q => q.1.length ≥ minWordLength) := List.mem_of_mem_take hp
    have hm : minWordLength ≤ p.1.length := of_decide_eq_true (List.mem_filter.mp h1).2
    have h2 : p ∈ getWordFrequency text removeStopWords := List.mem_of_mem_filter h1
    have h3 : p ∈ freqList (filteredWords text removeStopWords) :=
      (sortByDesc_perm _ _).mem_iff.mp (List.mem_of_mem_take h2)
    have h4 : p.1 ∈ filteredWords text removeStopWords := freqList_fst_mem _ p h3
    have h5 : p.1 ∈ lengthTokens text := filteredWords_sub_lengthTokens _ _ _ h4
    have h6 : p.1.length > 2 := of_decide_eq_true (List.mem_filter.mp h5).2
    exact ⟨h6, hm⟩
  · intro h50 hmw w hw hlen
    have hsort_len : (sortByDesc (fun q => q.2)
        (freqList (filteredWords text removeStopWords))).length
        = (freqList (filteredWords text removeStopWords)).length :=
      (sortByDesc_perm _ _).length_eq
    have htake : (sortByDesc (fun q => q.2)
        (freqList (filteredWords text removeStopWords))).take 50
        = sortByDesc (fun q => q.2) (freqList (filteredWords text removeStopWords)) :=
      List.take_of_length_le (by rw [hsort_len]; exact h50)
    have hkc : 0 < keyCount (freqList (filteredWords text removeStopWords)) w := by
      rw [freqList_keyCount]
      exact List.count_pos_iff.mpr hw
    obtain ⟨c, hc⟩ := keyCount_pos_mem hkc
    have hc1 : (w, c) ∈ sortByDesc (fun q => q.2)
        (freqList (filteredWords text removeStopWords)) :=
      (sortByDesc_perm _ _).mem_iff.mpr hc
    have hc2 : (w, c) ∈ (sortByDesc (fun q => q.2)
        (freqList (filteredWords text removeStopWords))).filter
        (fun q => q.1.length ≥ minWordLength) :=
      List.mem_filter.mpr ⟨hc1, decide_eq_true hlen⟩
    have hflt_len : ((sortByDesc (fun q => q.2)
        (freqList (filteredWords text removeStopWords))).filter
        (fun q => q.1.length ≥ minWordLength)).length
        ≤ (freqList (filteredWords text removeStopWords)).length := by
      calc _ ≤ (sortByDesc (fun q => q.2)
            (freqList (filteredWords text removeStopWords))).length :=
              List.length_filter_le _ _
        _ = _ := hsort_len
    have htake2 : ((sortByDesc (fun q => q.2)
        (freqList (filteredWords text removeStopWords))).filter
        (fun q => q.1.length ≥ minWordLength)).take maxWords
        = (sortByDesc (fun q => q.2)
            (freqList (filteredWords text removeStopWords))).filter
            (fun q => q.1.length ≥ minWordLength) :=
      List.take_of_length_le (le_trans hflt_len hmw)
    unfold generateWordCloudFreqs getWordFrequency
    rw [htake, htake2]
    exact List.mem_map_of_mem Prod.fst hc2

/-- Witness for the amended C4 at `"cat cat dog"`, `minWordLength = 3`,
`maxWords = 50`: the returned entry `("cat", 2)` meets both length bounds,
and the untruncated run retains the filtered token `"cat"`. -/
theorem claim4_witness :
    (3 ≤ ("cat" : String).length ∧ 3 ≤ ("cat" : String).length) ∧
    "cat" ∈ (generateWordCloudFreqs "cat cat dog" false 3 50).map Prod.fst :=
  ⟨(claim4_min_length_amended "cat cat dog" false 3 50).1 ("cat", 2) (by decide),
   (claim4_min_length_amended "cat cat dog" false 3 50).2 (by decide) (by decide)
     "cat" (by decide) (by decide)⟩

/-- The unnormalized lexical score is the number of positive-token
occurrences minus the number of negative-token occurrences. -/
theorem lexicalScore_eq_counts (text : String) :
    lexicalScore text =
      ((wsTokens text).countP (fun w => positiveWordsLex.contains w) : ℤ)
      - ((wsTokens text).countP (fun w => negativeWordsLex.contains w) : ℤ) := by
  suffices h : ∀ (ws : List String) (z : ℤ),
      ws.foldl (fun score word =>
        let score := if positiveWordsLex.contains word then score + 1 else score
        if negativeWordsLex.contains word then score - 1 else score) z
      = z + (ws.countP (fun w => positiveWordsLex.contains w) : ℤ)
          - (ws.countP (fun w => negativeWordsLex.contains w) : ℤ) by
    simpa [lexicalScore] using h (wsTokens text) 0
  intro ws
  induction ws with
  | nil => intro z; simp
  | cons w rest ih =>
    intro z
    simp only [List.foldl_cons, ih, List.countP_cons]
    by_cases hp : w ∈ positiveWordsLex <;>
      by_cases hn : w ∈ negativeWordsLex <;>
        simp [hp, hn] <;> omega

/-- C2: for every input text, the normalized sentiment score
`Math.max(-1, Math.min(1, score / words.length * 5))` lies within
`[-1, 1]`. -/
theorem claim2_normalized_score_bounded (text : String) :
    -1 ≤ normalizedScore text ∧ normalizedScore text ≤ 1 := by
  unfold normalizedScore
  exact ⟨le_max_left _ _, max_le (by norm_num) (min_le_left _ _)⟩

/-- C3: the lexical scorer adds one per whitespace token (case-folded) in
the positive-word list and subtracts one per token in the negative-word
list, counting every occurrence by whole-token match; in particular
`"good good bad"` scores `2 - 1 = 1`. -/
theorem claim3_lexical_scorer :
    (∀ text : String, lexicalScore text =
      ((wsTokens text).countP (fun w => positiveWordsLex.contains w) : ℤ)
      - ((wsTokens text).countP (fun w => negativeWordsLex.contains w) : ℤ))
    ∧ lexicalScore "good good bad" = 1 :=
  ⟨lexicalScore_eq_counts, by decide⟩

theorem scoredSentences_length (text : String) :
    (scoredSentences text).length = (sentencesOf text).length := by
  simp [scoredSentences, List.enum_length]

/-- Counterexample to C5 as stated: `"A. B."` has 2 sentences, so the claim
predicts `min(max(1, ceil(0.4 * 2)), 2) = 1` summary sentences for the
medium setting, but `summarizeText` selects 2 (its medium minimum is 2, not
1). -/
theorem claim5_counterexample :
    (topSentences "A. B." SummaryLength.medium).length = 2 ∧
    min (max 1 (ceilDiv (2 * (sentencesOf "A. B.").length) 5))
      (sentencesOf "A. B.").length = 1 ∧
    (topSentences "A. B." SummaryLength.medium).length ≠
      min (max 1 (ceilDiv (2 * (sentencesOf "A. B.").length) 5))
        (sentencesOf "A. B.").length := by
  decide

/-- C5 (amended): for every text and length setting the summarizer selects
exactly `min(n, max(k, ceil(f * n)))` sentences, where `n` is the sentence
count and the minimum `k` is 1/2/3 and the fraction `f` is 20%/40%/60% for
short/medium/long respectively. -/
theorem claim5_target_count_amended (text : String) (len : SummaryLength) :
    (topSentences text len).length
      = min (targetSentences len (sentencesOf text).length)
          (sentencesOf text).length := by
  unfold topSentences
  rw [(sortByAsc_perm _ _).length_eq, List.length_take, (sortByDesc_perm _ _).length_eq,
    scoredSentences_length]

/-- C6: on the concrete 10-sentence input with the medium (40%) setting the
summarizer returns exactly 4 sentences and their original indices appear in
strictly increasing (document) order. -/
theorem claim6_ten_sentences_medium :
    (topSentences "A. B. C. D. E. F. G. H. I. J." SummaryLength.medium).length = 4 ∧
    ((topSentences "A. B. C. D. E. F. G. H. I. J." SummaryLength.medium).map
        fun s => s.index) = [0, 1, 2, 8] ∧
    List.Chain' (fun a b => a < b) [0, 1, 2, 8] ∧
    summarizeText "A. B. C. D. E. F. G. H. I. J." SummaryLength.medium
      = "A. B. C. I." := by
  refine ⟨by decide, by decide, ?_, by decide⟩
  norm_num [List.chain'_cons]

/-- C9: the summarizer is deterministic — any two runs on equal inputs and
equal length settings return equal output strings (the embedding is a pure
function of exactly these two arguments; the source uses no randomness or
external state). -/
theorem claim9_summarizer_deterministic (t1 t2 : String) (l1 l2 : SummaryLength)
    (ht : t1 = t2) (hl : l1 = l2) : summarizeText t1 l1 = summarizeText t2 l2 := by
  rw [ht, hl]

/-- Witness for C9: two identical runs on `"A."` with the short setting
agree. -/
theorem claim9_witness :
    "A." = "A." ∧
    summarizeText "A." SummaryLength.short = summarizeText "A." SummaryLength.short :=
  ⟨rfl, claim9_summarizer_deterministic "A." "A." SummaryLength.short SummaryLength.short
    rfl rfl⟩

/-- Counterexample to C7 as stated: a failing summarization request leaves
the summary state unchanged (empty), even though the repository's own local
summarizer (`summarizeText`, the claim's "deterministic local computation")
would produce a nonempty result for the same input — `handleSummarize`'s
`catch` only logs and computes no fallback. -/
theorem claim7_counterexample :
    (handleSummarizeUpdate { summary := "", keyPhrases := [] }
        FetchOutcome.err).summary = "" ∧
    summarizeText "Corporate bill." SummaryLength.medium ≠ "" :=
  ⟨rfl, by decide⟩

/-- C7 (amended): the sentiment call site catches every network failure and
maps it to the local fallback heuristic, and the summarization call site
catches every network failure without surfacing an error — but it leaves
its state unchanged instead of computing a local fallback result. -/
theorem claim7_fallback_amended :
    (∀ (text : String) (r1 r2 r3 : ℚ),
      analyzeSentimentStream text r1 r2 r3 FetchOutcome.err
        = getLocalSentimentAnalysis text r1 r2) ∧
    (∀ st : SummarizerState, handleSummarizeUpdate st FetchOutcome.err = st) :=
  ⟨fun _ _ _ _ => rfl, fun _ => rfl⟩

/-- Every radius the word-cloud constructor assigns is at most `101.2`, so
it satisfies the half-canvas hypotheses of the clamping bound. -/
theorem wordRadius_le_half (size : ℚ) (textLen : Nat) :
    wordRadius size textLen ≤ halfH ∧ wordRadius size textLen ≤ halfW := by
  have h1 : min (max (max 14 (size * 1)) ((3/5) * size * (textLen : ℚ) / 2 + 10)) 110
      ≤ 110 := min_le_right _ _
  have h2 : min (max (max 14 (size * 1)) ((3/5) * size * (textLen : ℚ) / 2 + 10)) 110
        * (92/100) ≤ 110 * (92/100) :=
    mul_le_mul_of_nonneg_right h1 (by norm_num)
  simp only [wordRadius, halfH, halfW]
  constructor <;> exact max_le (by norm_num) (by linarith)

/-- C8: for every node whose radius is at most half the canvas width and at
most half the canvas height, the final clamping step leaves its center
inside the canvas bounds shrunk by the radius, on both axes. -/
theorem claim8_clamped_in_bounds (x y radius : ℚ)
    (hx : radius ≤ halfW) (hy : radius ≤ halfH) :
    (-halfW + radius ≤ (clampNode x y radius).1 ∧
      (clampNode x y radius).1 ≤ halfW - radius) ∧
    (-halfH + radius ≤ (clampNode x y radius).2 ∧
      (clampNode x y radius).2 ≤ halfH - radius) := by
  unfold clampNode
  exact ⟨⟨le_max_left _ _, max_le (by linarith) (min_le_left _ _)⟩,
    ⟨le_max_left _ _, max_le (by linarith) (min_le_left _ _)⟩⟩

/-- Witness for C8: a node far outside the canvas (`x = 10000`,
`y = -10000`) with radius `100` is clamped into bounds. -/
theorem claim8_witness :
    ((100 : ℚ) ≤ halfW ∧ (100 : ℚ) ≤ halfH) ∧
    ((-halfW + 100 ≤ (clampNode 10000 (-10000) 100).1 ∧
       (clampNode 10000 (-10000) 100).1 ≤ halfW - 100) ∧
     (-halfH + 100 ≤ (clampNode 10000 (-10000) 100).2 ∧
       (clampNode 10000 (-10000) 100).2 ≤ halfH - 100)) :=
  ⟨⟨by norm_num [halfW], by norm_num [halfH]⟩,
   claim8_clamped_in_bounds 10000 (-10000) 100 (by norm_num [halfW])
     (by norm_num [halfH])⟩

/-- Counterexample to C10's neutral-branch open interval: with both
`Math.random()` draws equal to `0` (a value the generator can return), the
neutral branch yields score exactly `-0.2`, which is not in the open
interval `(-0.2, 0.2)`. -/
theorem claim10_counterexample :
    (getLocalSentimentAnalysis "xyz" 0 0).sentiment = SentimentLabel.neutral ∧
    (getLocalSentimentAnalysis "xyz" 0 0).score = -(1/5) ∧
    ¬(-(1/5 : ℚ) < (getLocalSentimentAnalysis "xyz" 0 0).score ∧
      (getLocalSentimentAnalysis "xyz" 0 0).score < 1/5) := by
  have h : getLocalSentimentAnalysis "xyz" 0 0
      = { sentiment := .neutral, score := -(1/5), confidence := 3/10 } := by
    simp only [getLocalSentimentAnalysis]
    norm_num [show (positiveWordsLocal.countP fun w => jsIncludes (jsToLower "xyz") w) = 0
        by decide,
      show (negativeWordsLocal.countP fun w => jsIncludes (jsToLower "xyz") w) = 0
        by decide]
  rw [h]
  norm_num

/-- C10 (amended): for every text and random draws in `[0, 1)`, the local
fallback's score lies within `[-0.95, 0.95]` and its confidence within
`[0, 0.9]`; the positive branch yields score `0.5 + confidence * 0.5` with
confidence capped at `0.9`, the negative branch its negation, and the
neutral branch a score in `[-0.2, 0.2)` with confidence in `[0.3, 0.5)`. -/
theorem claim10_local_fallback_amended (text : String) (r1 r2 : ℚ)
    (h1 : 0 ≤ r1) (h2 : r1 < 1) (h3 : 0 ≤ r2) (h4 : r2 < 1) :
    (-(19/20) ≤ (getLocalSentimentAnalysis text r1 r2).score ∧
      (getLocalSentimentAnalysis text r1 r2).score ≤ 19/20) ∧
    (0 ≤ (getLocalSentimentAnalysis text r1 r2).confidence ∧
      (getLocalSentimentAnalysis text r1 r2).confidence ≤ 9/10) ∧
    ((getLocalSentimentAnalysis text r1 r2).sentiment = SentimentLabel.positive →
      (getLocalSentimentAnalysis text r1 r2).score
        = 1/2 + (getLocalSentimentAnalysis text r1 r2).confidence * (1/2)) ∧
    ((getLocalSentimentAnalysis text r1 r2).sentiment = SentimentLabel.negative →
      (getLocalSentimentAnalysis text r1 r2).score
        = -(1/2 + (getLocalSentimentAnalysis text r1 r2).confidence * (1/2))) ∧
    ((getLocalSentimentAnalysis text r1 r2).sentiment = SentimentLabel.neutral →
      (-(1/5) ≤ (getLocalSentimentAnalysis text r1 r2).score ∧
        (getLocalSentimentAnalysis text r1 r2).score < 1/5) ∧
      (3/10 ≤ (getLocalSentimentAnalysis text r1 r2).confidence ∧
        (getLocalSentimentAnalysis text r1 r2).confidence < 1/2)) := by
  unfold getLocalSentimentAnalysis
  by_cases hp : (positiveWordsLocal.countP fun w => jsIncludes (jsToLower text) w)
      > (negativeWordsLocal.countP fun w => jsIncludes (jsToLower text) w)
  · simp only [if_pos hp]
    have hd : (1 : ℚ)
        ≤ ((positiveWordsLocal.countP fun w => jsIncludes (jsToLower text) w : Nat) : ℚ)
          - ((negativeWordsLocal.countP fun w => jsIncludes (jsToLower text) w : Nat) : ℚ) := by
      have hn : (negativeWordsLocal.countP fun w => jsIncludes (jsToLower text) w) + 1
          ≤ (positiveWordsLocal.countP fun w => jsIncludes (jsToLower text) w) := hp
      have hn2 : ((negativeWordsLocal.countP fun w => jsIncludes (jsToLower text) w : Nat) : ℚ)
          + 1 ≤ ((positiveWordsLocal.countP fun w => jsIncludes (jsToLower text) w : Nat) : ℚ) := by
        exact_mod_cast hn
      linarith
    have hcle : min (1/2
        + (((positiveWordsLocal.countP fun w => jsIncludes (jsToLower text) w : Nat) : ℚ)
          - ((negativeWordsLocal.countP fun w => jsIncludes (jsToLower text) w : Nat) : ℚ))
            * (1/10)) (9/10) ≤ 9/10 := min_le_right _ _
    have hcge : (3/5 : ℚ) ≤ min (1/2
        + (((positiveWordsLocal.countP fun w => jsIncludes (jsToLower text) w : Nat) : ℚ)
          - ((negativeWordsLocal.countP fun w => jsIncludes (jsToLower text) w : Nat) : ℚ))
            * (1/10)) (9/10) := le_min (by linarith) (by norm_num)
    refine ⟨⟨by linarith, by linarith⟩, ⟨by linarith, hcle⟩, fun _ => trivial, ?_, ?_⟩
    · intro hc; simp at hc
    · intro hc; simp at hc
  · by_cases hn : (negativeWordsLocal.countP fun w => jsIncludes (jsToLower text) w)
        > (positiveWordsLocal.countP fun w => jsIncludes (jsToLower text) w)
    · simp only [if_neg hp, if_pos hn]
      have hd : (1 : ℚ)
          ≤ ((negativeWordsLocal.countP fun w => jsIncludes (jsToLower text) w : Nat) : ℚ)
            - ((positiveWordsLocal.countP fun w => jsIncludes (jsToLower text) w : Nat) : ℚ) := by
        have hh : (positiveWordsLocal.countP fun w => jsIncludes (jsToLower text) w) + 1
            ≤ (negativeWordsLocal.countP fun w => jsIncludes (jsToLower text) w) := hn
        have hh2 : ((positiveWordsLocal.countP fun w => jsIncludes (jsToLower text) w : Nat) : ℚ)
            + 1 ≤ ((negativeWordsLocal.countP fun w => jsIncludes (jsToLower text) w : Nat) : ℚ) := by
          exact_mod_cast hh
        linarith
      have hcle : min (1/2
          + (((negativeWordsLocal.countP fun w => jsIncludes (jsToLower text) w : Nat) : ℚ)
            - ((positiveWordsLocal.countP fun w => jsIncludes (jsToLower text) w : Nat) : ℚ))
              * (1/10)) (9/10) ≤ 9/10 := min_le_right _ _
      have hcge : (3/5 : ℚ) ≤ min (1/2
          + (((negativeWordsLocal.countP fun w => jsIncludes (jsToLower text) w : Nat) : ℚ)
            - ((positiveWordsLocal.countP fun w => jsIncludes (jsToLower text) w : Nat) : ℚ))
              * (1/10)) (9/10) := le_min (by linarith) (by norm_num)
      refine ⟨⟨by linarith, by linarith⟩, ⟨by linarith, hcle⟩, ?_, fun _ => trivial, ?_⟩
      · intro hc; simp at hc
      · intro hc; simp at hc
    · simp only [if_neg hp, if_neg hn]
      refine ⟨⟨by nlinarith, by nlinarith⟩, ⟨by nlinarith, by nlinarith⟩, ?_, ?_,
        fun _ => ⟨⟨by nlinarith, by nlinarith⟩, ⟨by nlinarith, by nlinarith⟩⟩⟩
      · intro hc; simp at hc
      · intro hc; simp at hc

/-- Witness for the amended C10 at text `"good"` (positive branch) with
draws `0` and `1/2`. -/
theorem claim10_witness :
    ((0 : ℚ) ≤ 0 ∧ (0 : ℚ) < 1 ∧ (0 : ℚ) ≤ (1/2 : ℚ) ∧ (1/2 : ℚ) < 1) ∧
    (-(19/20) ≤ (getLocalSentimentAnalysis "good" 0 (1/2)).score ∧
      (getLocalSentimentAnalysis "good" 0 (1/2)).score ≤ 19/20) :=
  ⟨⟨le_refl 0, by norm_num, by norm_num, by norm_num⟩,
   (claim10_local_fallback_amended "good" 0 (1/2) (le_refl 0) (by norm_num)
     (by norm_num) (by norm_num)).1⟩

end Keystone
